import Mathlib

/-!
Verification of the scholarship-database browser (src/app.js).

The JavaScript source is shallowly embedded:
* field values are `Option String` (absent fields are `none`);
* a normalized row (`Record`) is an association list from field name to
  optional value, read through `getF` (JS property access `r[k]`);
* `JS Array.prototype.sort` with a consistent comparator is modelled by the
  stable `List.mergeSort` with the Boolean relation "comparator ≤ 0";
* `new Date(s)` is an opaque host function, modelled by an arbitrary
  parameter `parse : String → Option Int` returning the epoch-millisecond
  timestamp when the string parses and `none` when the result is `NaN`;
* IndexedDB object-store contents are a list of `Fav` entries keyed by `id`
  (`put` replaces the entry with the same key, `delete` removes it);
* a rejected IndexedDB transaction is modelled by a Boolean `storeOk`
  parameter on the favorite-toggle handler: when false, the `await` throws
  and the rest of the handler body does not run.

The filter modes use the source strings: the select value "yes" is the
spec's "non-US-inclusive" mode, "no" is "US-only", anything else is "any".
-/

namespace App

/-- JS `String.prototype.toLowerCase`, character by character (the dataset
and patterns are ASCII). -/
def lowerStr (s : String) : String := ⟨s.data.map Char.toLower⟩

/-- `normalize(str)` from app.js: `(str || '').toString().toLowerCase()`.
Absent values (`undefined`) become the empty string. -/
def normalize (s : Option String) : String := lowerStr (s.getD "")

/-- Named ASCII characters (used instead of character literals for the
characters that are special in the embedding). -/
def ampChar : Char := Char.ofNat 38

def ltChar : Char := Char.ofNat 60

def gtChar : Char := Char.ofNat 62

def quotChar : Char := Char.ofNat 34

def aposChar : Char := Char.ofNat 39

def spaceChar : Char := Char.ofNat 32

def commaChar : Char := Char.ofNat 44

def dotChar : Char := Char.ofNat 46

/-- Does the character list start with the given pattern? -/
def startsWithL : List Char → List Char → Bool
  | _, [] => true
  | [], _ :: _ => false
  | c :: cs, p :: ps => c == p && startsWithL cs ps

/-- Substring test on character lists (JS `String.prototype.includes`, and
the substring alternatives of the regular expressions in app.js). -/
def containsSub : List Char → List Char → Bool
  | [], pat => pat.isEmpty
  | c :: rest, pat => startsWithL (c :: rest) pat || containsSub rest pat

/-- `hay.includes(pat)` on strings. -/
def strContains (hay pat : String) : Bool := containsSub hay.data pat.data

/-- Alternatives of the inclusive citizenship regex in `filterRows`:
`/(non[- ]?us|undocumented|daca|international|any citizenship|noncitizen|no citizenship requirement)/`. -/
def inclusivePatterns : List String :=
  ["non-us", "non us", "nonus", "undocumented", "daca", "international",
   "any citizenship", "noncitizen", "no citizenship requirement"]

/-- Alternatives of the strict-exclusion regex used in mode "yes":
`/(us citizen|u\.s\. citizen|permanent resident|us residency required)/`. -/
def strictExclusionPatterns : List String :=
  ["us citizen", "u.s. citizen", "permanent resident", "us residency required"]

/-- Alternatives of the strict-requirement regex used in mode "no":
`/(us citizen|u\.s\. citizen|permanent resident)/`. -/
def strictRequirementPatterns : List String :=
  ["us citizen", "u.s. citizen", "permanent resident"]

/-- `pats.test(t)` for an alternation of plain substrings. -/
def matchesAny (pats : List String) (t : String) : Bool :=
  pats.any (fun p => strContains t p)

/-- A normalized row: association list from field name to optional value. -/
abbrev Record := List (String × Option String)

/-- JS property access `r[k]`: `none` when the key is absent. -/
def getF (r : Record) (k : String) : Option String := (r.lookup k).getD none

/-- The four text inputs read at the top of `filterRows` (raw widget
values; `filterRows` lower-cases them itself). The select `nonUS` takes
the source values "any" | "yes" | "no". -/
structure FilterSpec where
  year : String
  degree : String
  nonUS : String
  q : String

/-- The fixed list `fieldsForQ` of searchable fields in `filterRows`
(spelled exactly as in the source, typos included). -/
def fieldsForQ : List String :=
  ["Scholarship Name", "Scholarship Target Audience", "About", "Amount",
   "Eligbility - Specific HS/College", "Eligbility - Subject/Major",
   "Eligibility - Grade", "Eligibility - GPA", "Eligibility - Heritage/Ethnicity",
   "Eligibility - Intended Level of Study", "Eligibility - Geogrphic Location",
   "Eligbility - Financial Need", "Application Requirements"]

/-- The citizenship branch of `filterRows`: `usMatch` starts `true` and is
overwritten in modes "yes" and "no". -/
def usCitizenshipMatch (nonUS : String) (citizenshipText : String) : Bool :=
  if nonUS == "yes" then
    matchesAny inclusivePatterns citizenshipText
      || ! matchesAny strictExclusionPatterns citizenshipText
  else if nonUS == "no" then
    matchesAny strictRequirementPatterns citizenshipText
  else true

/-- `filterRows` from app.js: conjunctive year/degree/citizenship/keyword
predicates over the row list. -/
def filterRows (fs : FilterSpec) (rows : List Record) : List Record :=
  let year := lowerStr fs.year
  let degree := lowerStr fs.degree
  let q := lowerStr fs.q
  rows.filter fun r =>
    let yrMatch := year.isEmpty ||
      [getF r "Eligibility - Grade", getF r "Scholarship Target Audience"].any
        (fun v => strContains (normalize v) year)
    let degMatch := degree.isEmpty ||
      [getF r "Eligibility - Intended Level of Study",
       getF r "Scholarship Target Audience"].any
        (fun v => strContains (normalize v) degree)
    let usMatch :=
      usCitizenshipMatch fs.nonUS (normalize (getF r "Eligibility - USA Citizenship"))
    let qMatch := q.isEmpty ||
      fieldsForQ.any (fun k => strContains (normalize (getF r k)) q)
    yrMatch && degMatch && usMatch && qMatch

/-- A record with no citizenship field at all. -/
def recNoCitizenship : Record := [("Scholarship Name", some "No Citizenship Field")]

/-- A record whose citizenship text contains "US citizen". -/
def recUSCitizensOnly : Record :=
  [("Eligibility - USA Citizenship", some "US citizens only")]

/-- With the three text inputs empty, membership in the filtered list is
decided by the citizenship branch alone. -/
theorem mem_filterRows_citizenship (mode : String) (rows : List Record) (r : Record) :
    r ∈ filterRows ⟨"", "", mode, ""⟩ rows ↔
      r ∈ rows ∧
        usCitizenshipMatch mode (normalize (getF r "Eligibility - USA Citizenship")) = true := by
  have hempty : (lowerStr "").isEmpty = true := by decide
  simp only [filterRows, List.mem_filter, hempty, Bool.true_or, Bool.true_and, Bool.and_true]

/-- C1: Citizenship predicate. Under mode "yes" (the spec's
"non-US-inclusive") a record passes the citizenship-only filter iff its
lower-cased citizenship-eligibility text matches the inclusive pattern or
does not match the strict-exclusion pattern; under mode "no" ("US-only")
iff the text matches the strict-requirement pattern; under mode "any"
every record passes. In particular a record with no citizenship field
passes "yes" and not "no", while one whose text contains "US citizen"
("US citizens only") passes "no" and not "yes". -/
theorem c1_citizenship_predicate :
    (∀ (rows : List Record) (r : Record),
      (r ∈ filterRows ⟨"", "", "yes", ""⟩ rows ↔
        r ∈ rows ∧
          (matchesAny inclusivePatterns
              (normalize (getF r "Eligibility - USA Citizenship")) = true ∨
           matchesAny strictExclusionPatterns
              (normalize (getF r "Eligibility - USA Citizenship")) = false))
      ∧ (r ∈ filterRows ⟨"", "", "no", ""⟩ rows ↔
        r ∈ rows ∧
          matchesAny strictRequirementPatterns
            (normalize (getF r "Eligibility - USA Citizenship")) = true)
      ∧ (r ∈ filterRows ⟨"", "", "any", ""⟩ rows ↔ r ∈ rows))
    ∧ recNoCitizenship ∈ filterRows ⟨"", "", "yes", ""⟩ [recNoCitizenship]
    ∧ recNoCitizenship ∉ filterRows ⟨"", "", "no", ""⟩ [recNoCitizenship]
    ∧ recUSCitizensOnly ∈ filterRows ⟨"", "", "no", ""⟩ [recUSCitizensOnly]
    ∧ recUSCitizensOnly ∉ filterRows ⟨"", "", "yes", ""⟩ [recUSCitizensOnly] := by
  refine ⟨fun rows r => ⟨?_, ?_, ?_⟩, by decide, by decide, by decide, by decide⟩
  · rw [mem_filterRows_citizenship]
    simp [usCitizenshipMatch, Bool.or_eq_true, Bool.not_eq_true']
  · rw [mem_filterRows_citizenship]
    simp [usCitizenshipMatch]
  · rw [mem_filterRows_citizenship]
    simp [usCitizenshipMatch]

/-- In-memory state touched by a favorite-toggle click: the global
`FAVORITES` set (as a list of ids) and the clicked button's `data-saved`
attribute. -/
structure ToggleState where
  favorites : List String
  btnSaved : Bool
deriving DecidableEq

/-- `FAVORITES.add(id)` on the JS `Set`. -/
def favAdd (l : List String) (i : String) : List String :=
  if l.contains i then l else l ++ [i]

/-- `FAVORITES.delete(id)` on the JS `Set`. -/
def favDelete (l : List String) (i : String) : List String :=
  l.filter (fun x => !(x == i))

/-- The favorite-button click handler from `render` (app.js lines 194-214),
restricted to the state it mutates. `storeOk` tells whether the awaited
`FavDB.remove`/`FavDB.add` transaction completes; when it rejects, the
`await` throws, the statements after it do not run, and the handler's
promise rejects (`Except.error`). -/
def toggleFavorite (storeOk : Bool) (i : String) (st : ToggleState) :
    ToggleState × Except Unit Unit :=
  let saved := st.favorites.contains i
  if saved then
    if storeOk then
      ({ favorites := favDelete st.favorites i, btnSaved := false }, Except.ok ())
    else (st, Except.error ())
  else
    if storeOk then
      ({ favorites := favAdd st.favorites i, btnSaved := true }, Except.ok ())
    else (st, Except.error ())

/-- C2: Atomicity of a favorite toggle on persistence failure. For every
identifier and state, when the store add/remove rejects, the in-memory
favorite set is unchanged (same membership for the identifier), the
button's saved/unsaved attribute is unchanged, and the rejection
propagates out of the handler. -/
theorem c2_toggle_atomic_on_failure :
    ∀ (i : String) (st : ToggleState),
      (toggleFavorite false i st).1 = st
      ∧ (toggleFavorite false i st).1.favorites.contains i = st.favorites.contains i
      ∧ (toggleFavorite false i st).1.btnSaved = st.btnSaved
      ∧ (toggleFavorite false i st).2 = Except.error () := by
  intro i st
  by_cases h : st.favorites.contains i = true <;>
    simp [toggleFavorite, h]

/-- The raw dataset payload `{ headers, data }` from `scholarships.json`;
`none` models an absent member of the JSON object. A raw row is itself a
partial field map, so it shares the `Record` representation. -/
structure Payload where
  headers : Option (List String)
  rowData : Option (List Record)

/-- `buildId(row)` from app.js: lower-cased name, a bar, and the raw
closing-date string (empty when absent). -/
def buildId (fields : Record) : String :=
  normalize (getF fields "Scholarship Name") ++ "|"
    ++ ((getF fields "Application Closes").getD "")

/-- A normalized record: the copied fields plus the derived `_id`. -/
structure NRecord where
  fields : Record
  id : String
deriving DecidableEq

/-- The dataset-normalization step of `init` (app.js lines 128-133):
`RAW = (json.data || []).map(row => { obj[h] = row[h] for h of (json.headers || []); obj._id = buildId(obj); return obj })`. -/
def initRows (p : Payload) : List NRecord :=
  (p.rowData.getD []).map (fun row =>
    let obj := (p.headers.getD []).map (fun h => (h, getF row h))
    { fields := obj, id := buildId obj })

/-- C3 counterexample: a payload with the headers list missing and one raw
row present yields one (blank) record, not an empty record sequence. -/
theorem c3_counterexample :
    (initRows { headers := none,
                rowData := some [[("Scholarship Name", some "A")]] }).length = 1
    ∧ (1 : Nat) ≠ 0 := by
  constructor
  · rfl
  · decide

/-- C3 amended: a payload missing the row list normalizes to the empty
record sequence; a payload missing the headers list yields one record per
raw row, each with an empty field map (normalization is a total function,
so neither case crashes). -/
theorem c3_amended :
    ∀ (p : Payload),
      (p.rowData = none → initRows p = [])
      ∧ (p.headers = none →
          (initRows p).length = (p.rowData.getD []).length
          ∧ ∀ nr ∈ initRows p, nr.fields = []) := by
  intro p
  constructor
  · intro h
    simp [initRows, h]
  · intro h
    simp [initRows, h]

/-- Witness for C3 amended, at two concrete payloads. -/
theorem c3_amended_witness :
    initRows { headers := some ["Scholarship Name"], rowData := none } = []
    ∧ (initRows { headers := none,
                  rowData := some [[("Scholarship Name", some "A")]] }).length = 1 :=
  ⟨(c3_amended { headers := some ["Scholarship Name"], rowData := none }).1 rfl,
   ((c3_amended { headers := none,
                  rowData := some [[("Scholarship Name", some "A")]] }).2 rfl).1.trans rfl⟩

/-- One persisted favorite: the object `{ id, name, savedAt }` stored by the
toggle handler (`name` is the row's possibly-absent `Scholarship Name`). -/
structure Fav where
  id : String
  name : Option String
  savedAt : Int
deriving DecidableEq

/-- The contents of the IndexedDB object store `favorites` (keyPath `id`). -/
abbrev Store := List Fav

/-- IndexedDB `store.put(fav)` on a store with keyPath `id`: replaces the
entry with the same key if one exists, otherwise inserts. (`FavDB.add`.) -/
def putFav (st : Store) (f : Fav) : Store :=
  if st.any (fun g => g.id == f.id) then
    st.map (fun g => if g.id == f.id then f else g)
  else st ++ [f]

/-- IndexedDB `store.delete(id)`: removes the entry with that key if
present, otherwise does nothing. (`FavDB.remove`.) -/
def deleteFav (st : Store) (i : String) : Store :=
  st.filter (fun g => !(g.id == i))

/-- The key sequence of the store (each entry's `id`). -/
def storeIds (st : Store) : List String := st.map Fav.id

/-- Replacing by key leaves the key sequence unchanged. -/
theorem storeIds_put_of_mem_keys (st : Store) (f : Fav)
    (h : st.any (fun g => g.id == f.id) = true) :
    storeIds (putFav st f) = storeIds st := by
  simp only [putFav, h, if_true, storeIds, List.map_map]
  apply List.map_congr_left
  intro g _
  by_cases hg : g.id = f.id <;> simp [hg]

/-- A stored favorite with identifier "a". -/
def favA0 : Fav := { id := "a", name := some "x", savedAt := 0 }

/-- A favorite with the same identifier "a" but a later timestamp. -/
def favA1 : Fav := { id := "a", name := some "x", savedAt := 1 }

/-- C6 counterexample: adding a favorite whose identifier is already
present does not leave the store contents unchanged — `put` replaces the
stored entry, so the store now holds the new timestamp. -/
theorem c6_counterexample :
    favA1.id = favA0.id ∧ putFav [favA0] favA1 ≠ [favA0] := by decide

/-- C6 amended: on a store with distinct keys, adding a favorite equal to
an entry already present leaves the store unchanged; removing an absent
identifier leaves it unchanged; and adding any favorite never creates a
duplicate key (the key sequence stays `Nodup`). The operations are total,
so no error is raised. -/
theorem c6_idempotence_amended :
    ∀ (st : Store) (f : Fav) (i : String),
      ((storeIds st).Nodup → f ∈ st → putFav st f = st)
      ∧ ((∀ g ∈ st, g.id ≠ i) → deleteFav st i = st)
      ∧ ((storeIds st).Nodup → (storeIds (putFav st f)).Nodup) := by
  intro st f i
  refine ⟨?_, ?_, ?_⟩
  · intro hnd hf
    have hany : st.any (fun g => g.id == f.id) = true :=
      List.any_eq_true.2 ⟨f, hf, by simp⟩
    have hmap : st.map (fun g => if g.id == f.id then f else g) = st.map id := by
      apply List.map_congr_left
      intro g hg
      by_cases hgid : g.id = f.id
      · have : g = f := List.inj_on_of_nodup_map hnd hg hf hgid
        simp [this]
      · simp [hgid]
    simp only [putFav, hany, if_true, hmap, List.map_id]
  · intro habs
    apply List.filter_eq_self.2
    intro g hg
    simp [habs g hg]
  · intro hnd
    by_cases hany : st.any (fun g => g.id == f.id) = true
    · rw [storeIds_put_of_mem_keys st f hany]
      exact hnd
    · have habs : ∀ g ∈ st, ¬(g.id = f.id) := by
        intro g hg hgid
        exact hany (List.any_eq_true.2 ⟨g, hg, by simp [hgid]⟩)
      have : putFav st f = st ++ [f] := by
        simp only [putFav, if_neg hany]
      rw [this]
      simp only [storeIds, List.map_append, List.map_cons, List.map_nil]
      rw [List.nodup_append]
      refine ⟨hnd, List.nodup_singleton _, ?_⟩
      intro a ha hb
      simp only [List.mem_singleton] at hb
      obtain ⟨g, hg, hgid⟩ := List.mem_map.1 (by simpa [storeIds] using ha)
      exact habs g hg (by rw [hgid, hb])

/-- Witness for C6 amended at a concrete one-entry store. -/
theorem c6_amended_witness :
    putFav [favA0] favA0 = [favA0]
    ∧ deleteFav [favA0] "b" = [favA0]
    ∧ (storeIds (putFav [favA0] favA0)).Nodup :=
  ⟨(c6_idempotence_amended [favA0] favA0 "b").1 (by decide) (by decide),
   (c6_idempotence_amended [favA0] favA0 "b").2.1 (by decide),
   (c6_idempotence_amended [favA0] favA0 "b").2.2 (by decide)⟩

/-- C7: Round-trip. On a store with distinct keys, after `add(fav)` the
listed contents contain exactly one entry with that identifier, and after
a subsequent `remove` of that identifier they contain none. (`getAll`
returns the store contents, so counting entries in the store counts the
listed entries.) -/
theorem c7_roundtrip :
    ∀ (st : Store) (f : Fav),
      (storeIds st).Nodup →
      (putFav st f).countP (fun g => g.id == f.id) = 1
      ∧ (deleteFav (putFav st f) f.id).countP (fun g => g.id == f.id) = 0 := by
  intro st f hnd
  constructor
  · by_cases hany : st.any (fun g => g.id == f.id) = true
    · obtain ⟨g0, hg0, hg0id⟩ := List.any_eq_true.1 hany
      have hg0id : g0.id = f.id := by simpa using hg0id
      have hmem : f.id ∈ storeIds st := by
        rw [← hg0id]
        exact List.mem_map.2 ⟨g0, hg0, rfl⟩
      have hcount : (storeIds st).count f.id = 1 :=
        List.count_eq_one_of_mem hnd hmem
      have hput : putFav st f = st.map (fun g => if g.id == f.id then f else g) := by
        simp only [putFav, hany, if_true]
      rw [hput, List.countP_map]
      have : ((fun g : Fav => g.id == f.id) ∘ fun g => if g.id == f.id then f else g)
          = fun g : Fav => g.id == f.id := by
        funext g
        by_cases hg : g.id = f.id <;> simp [hg]
      rw [this]
      have : List.countP (fun g : Fav => g.id == f.id) st
          = (storeIds st).count f.id := by
        simp only [storeIds, List.count, List.countP_map]
        rfl
      rw [this, hcount]
    · have hput : putFav st f = st ++ [f] := by
        simp only [putFav, if_neg hany]
      rw [hput, List.countP_append]
      have h0 : List.countP (fun g : Fav => g.id == f.id) st = 0 := by
        apply List.countP_eq_zero.2
        intro g hg hgp
        exact hany (List.any_eq_true.2 ⟨g, hg, hgp⟩)
      simp [h0]
  · apply List.countP_eq_zero.2
    intro g hg
    have := List.of_mem_filter hg
    simpa using this

/-- Witness for C7 at the empty store. -/
theorem c7_roundtrip_witness :
    (putFav [] favA0).countP (fun g => g.id == favA0.id) = 1
    ∧ (deleteFav (putFav [] favA0) favA0.id).countP (fun g => g.id == favA0.id) = 0 :=
  ⟨(c7_roundtrip [] favA0 (by decide)).1, (c7_roundtrip [] favA0 (by decide)).2⟩

/-- Numeric value of a digit run (most significant first). -/
def digitsVal (ds : List Char) : Nat :=
  ds.foldl (fun n c => 10 * n + (c.toNat - 48)) 0

/-- An exact decimal: the value `num / 10 ^ scale`. (JS `Number` values of
the matches; the dataset amounts are exactly representable.) -/
structure AmtVal where
  num : Nat
  scale : Nat
deriving DecidableEq

/-- The rational value an `AmtVal` denotes. -/
def AmtVal.toRat (x : AmtVal) : ℚ := (x.num : ℚ) / (10 : ℚ) ^ x.scale

/-- JS `Number("<int>.<frac>")` as an exact decimal. -/
def numOfParts (intPart fracPart : List Char) : AmtVal :=
  { num := digitsVal intPart * 10 ^ fracPart.length + digitsVal fracPart,
    scale := fracPart.length }

/-- Numeric comparison of exact decimals (cross-multiplied). -/
def amtValLe (x y : AmtVal) : Bool :=
  decide (x.num * 10 ^ y.scale ≤ y.num * 10 ^ x.scale)

/-- `Math.max` of two exact decimals. -/
def amtValMax (x y : AmtVal) : AmtVal := if amtValLe x y then y else x

/-- Split a leading digit run off a character list. -/
def takeDigits : List Char → List Char × List Char
  | [] => ([], [])
  | c :: cs =>
    if c.isDigit then
      let p := takeDigits cs
      (c :: p.1, p.2)
    else ([], c :: cs)

/-- Global scan of `/(\d+)(\.\d+)?/g`: every maximal digit run, optionally
followed by a decimal point and a further digit run, parsed as a number.
The fuel argument bounds recursion depth; `numTokens` supplies enough. -/
def numTokensF : Nat → List Char → List AmtVal
  | 0, _ => []
  | _, [] => []
  | fuel + 1, c :: cs =>
    if c.isDigit then
      let p := takeDigits (c :: cs)
      match p.2 with
      | d :: r2 =>
        if d == dotChar then
          match takeDigits r2 with
          | ([], _) => numOfParts p.1 [] :: numTokensF fuel p.2
          | (f :: fs, rest2) => numOfParts p.1 (f :: fs) :: numTokensF fuel rest2
        else numOfParts p.1 [] :: numTokensF fuel p.2
      | [] => [numOfParts p.1 []]
    else numTokensF fuel cs

/-- All numbers matched by `/(\d+)(\.\d+)?/g` in the character list. -/
def numTokens (s : List Char) : List AmtVal := numTokensF (s.length + 1) s

/-- `Math.max(...)` over the token list, `0` when the match result is null. -/
def maxAmtList : List AmtVal → AmtVal
  | [] => { num := 0, scale := 0 }
  | x :: xs => xs.foldl amtValMax x

/-- The `amt` helper of the amount-descending sort in `render`:
`(s||'').toString().replace(/[, ]/g,'').match(/(\d+)(\.\d+)?/g)`, then the
maximum of the matches, `0` if there are none. -/
def amt (s : Option String) : AmtVal :=
  let cleaned := (s.getD "").data.filter (fun c => !(c == commaChar || c == spaceChar))
  maxAmtList (numTokens cleaned)

/-- The record's amount value used by the comparator. -/
def amtOf (r : Record) : AmtVal := amt (getF r "Amount")

/-- The comparator `(a,b) => amt(b['Amount']) - amt(a['Amount'])` as the
Boolean order "a may precede b", i.e. comparator value ≤ 0. -/
def amountLe (a b : Record) : Bool := amtValLe (amtOf b) (amtOf a)

/-- The `rows.sort(...)` call of the `amountDesc` branch of `render`,
modelled by a stable merge sort with the comparator's order. -/
def sortAmountDesc (rows : List Record) : List Record :=
  rows.mergeSort amountLe

/-- Numeric comparison of exact decimals agrees with their rational
values. -/
theorem amtValLe_iff (x y : AmtVal) : amtValLe x y = true ↔ x.toRat ≤ y.toRat := by
  unfold amtValLe AmtVal.toRat
  rw [decide_eq_true_iff, div_le_div_iff₀ (by positivity) (by positivity)]
  constructor
  · intro h
    exact_mod_cast h
  · intro h
    exact_mod_cast h

/-- The amount comparator is transitive. -/
theorem amountLe_trans :
    ∀ a b c : Record, amountLe a b = true → amountLe b c = true → amountLe a c = true := by
  intro a b c hab hbc
  rw [amountLe, amtValLe_iff] at *
  exact le_trans hbc hab

/-- The amount comparator is total. -/
theorem amountLe_total : ∀ a b : Record, (amountLe a b || amountLe b a) = true := by
  intro a b
  rcases le_total (amtOf b).toRat (amtOf a).toRat with h | h
  · rw [Bool.or_eq_true, amountLe, amtValLe_iff]
    exact Or.inl h
  · rw [Bool.or_eq_true, amountLe, amountLe, amtValLe_iff, amtValLe_iff]
    exact Or.inr h

/-- A record whose amount field is the single amount `$1,000`. -/
def recAmount1000 : Record :=
  [("Scholarship Name", some "A"), ("Amount", some "$1,000")]

/-- A record whose amount field is the range `$500 - $2,000`. -/
def recAmount500to2000 : Record :=
  [("Scholarship Name", some "B"), ("Amount", some "$500 - $2,000")]

/-- C4: Amount-descending sort. Every record's amount value is the maximum
of the numeric substrings extracted from its amount field after stripping
commas and spaces (`0` when none are found, as the `Varies` conjunct
shows); the sorted output is ordered by this value descending and is a
permutation of the input; and for the amounts `$1,000` and
`$500 - $2,000` the second (maximum 2000) sorts before the first
(maximum 1000). -/
theorem c4_amount_descending_sort :
    (∀ rows : List Record,
      List.Pairwise (fun a b => (amtOf b).toRat ≤ (amtOf a).toRat) (sortAmountDesc rows)
      ∧ (sortAmountDesc rows).Perm rows)
    ∧ amt (some "$1,000") = { num := 1000, scale := 0 }
    ∧ amt (some "$500 - $2,000") = { num := 2000, scale := 0 }
    ∧ amt (some "Varies") = { num := 0, scale := 0 }
    ∧ sortAmountDesc [recAmount1000, recAmount500to2000]
        = [recAmount500to2000, recAmount1000] := by
  refine ⟨fun rows => ⟨?_, List.mergeSort_perm rows amountLe⟩,
    by decide, by decide, by decide, ?_⟩
  · exact (List.sorted_mergeSort amountLe_trans amountLe_total rows).imp
      (fun hab => (amtValLe_iff _ _).1 hab)
  · have h1 : amountLe recAmount500to2000 recAmount1000 = true := by decide
    have h2 : amountLe recAmount1000 recAmount500to2000 = false := by decide
    simp [sortAmountDesc, List.mergeSort, h1, h2]

/-- `safeDate(s)` from app.js: `null` for an absent or empty (falsy)
string, otherwise the parsed timestamp (`parse` models `new Date`,
returning `none` exactly when the result is `NaN`). -/
def safeDateK (parse : String → Option Int) : Option String → Option Int
  | none => none
  | some str => if str.isEmpty then none else parse str

/-- The sort key `safeDate(r['Application Closes'])`. -/
def closesKey (parse : String → Option Int) (r : Record) : Option Int :=
  safeDateK parse (getF r "Application Closes")

/-- The comparator `(a,b) => (safeDate(a[..])||Infinity) - (safeDate(b[..])||Infinity)`
as the Boolean order "a may precede b" (comparator value ≤ 0, with the
`NaN` produced by `Infinity - Infinity` treated as 0, i.e. as a tie, which
is how `Array.prototype.sort` consumes a `NaN` comparator result). -/
def closesLe (parse : String → Option Int) (a b : Record) : Bool :=
  match closesKey parse a, closesKey parse b with
  | none, none => true
  | none, some _ => false
  | some _, none => true
  | some x, some y => decide (x ≤ y)

/-- The `rows.sort(...)` call of the `closesAsc` branch of `render`,
modelled by a stable merge sort with the comparator's order. -/
def sortClosesAsc (parse : String → Option Int) (rows : List Record) : List Record :=
  rows.mergeSort (closesLe parse)

/-- The closing-date comparator is transitive. -/
theorem closesLe_trans (parse : String → Option Int) :
    ∀ a b c : Record, closesLe parse a b = true → closesLe parse b c = true →
      closesLe parse a c = true := by
  intro a b c hab hbc
  unfold closesLe at *
  rcases ha : closesKey parse a with _ | x <;>
    rcases hb : closesKey parse b with _ | y <;>
      rcases hc : closesKey parse c with _ | z <;>
        simp_all
  exact le_trans hab hbc

/-- The closing-date comparator is total. -/
theorem closesLe_total (parse : String → Option Int) :
    ∀ a b : Record, (closesLe parse a b || closesLe parse b a) = true := by
  intro a b
  unfold closesLe
  rcases closesKey parse a with _ | x <;> rcases closesKey parse b with _ | y <;> simp
  exact le_total x y

/-- C5: Closing-date-ascending sort. For every date parser and input row
list: in the sorted output no record with an unparseable or absent closing
date precedes a record with a parseable one (first conjunct: once a key is
`none`, every later key is `none`); records with parseable dates appear in
ascending timestamp order (second conjunct); the output is a permutation
of the input; and for each timestamp the subsequence of records with that
exact key is unchanged, so the relative order of records whose parseable
dates compare equal is preserved. -/
theorem c5_closing_date_ascending_sort :
    ∀ (parse : String → Option Int) (rows : List Record),
      List.Pairwise (fun a b => closesKey parse a = none → closesKey parse b = none)
        (sortClosesAsc parse rows)
      ∧ List.Pairwise (fun a b => ∀ x y : Int, closesKey parse a = some x →
          closesKey parse b = some y → x ≤ y) (sortClosesAsc parse rows)
      ∧ (sortClosesAsc parse rows).Perm rows
      ∧ ∀ k : Int,
          (sortClosesAsc parse rows).filter (fun r => closesKey parse r == some k)
            = rows.filter (fun r => closesKey parse r == some k) := by
  intro parse rows
  have hsorted := List.sorted_mergeSort (closesLe_trans parse) (closesLe_total parse) rows
  refine ⟨?_, ?_, List.mergeSort_perm rows (closesLe parse), ?_⟩
  · refine hsorted.imp ?_
    intro a b hab ha
    unfold closesLe at hab
    rcases hb : closesKey parse b with _ | y
    · rfl
    · rw [ha, hb] at hab
      exact absurd hab (by simp)
  · refine hsorted.imp ?_
    intro a b hab x y hx hy
    unfold closesLe at hab
    rw [hx, hy] at hab
    simpa using hab
  · intro k
    set p : Record → Bool := fun r => closesKey parse r == some k with hp
    have hall : ∀ a ∈ rows.filter p, closesKey parse a = some k := by
      intro a ha
      have := (List.mem_filter.1 ha).2
      simpa [hp] using this
    have hpw : (rows.filter p).Pairwise (fun a b => closesLe parse a b = true) := by
      apply List.pairwise_of_forall_mem_list
      intro a ha b hb
      unfold closesLe
      rw [hall a ha, hall b hb]
      simp
    have hsub : (rows.filter p).Sublist (sortClosesAsc parse rows) :=
      List.sublist_mergeSort (closesLe_trans parse) (closesLe_total parse) hpw
        (List.filter_sublist rows)
    have hsub2 : (rows.filter p).Sublist ((sortClosesAsc parse rows).filter p) := by
      have h := hsub.filter p
      rwa [List.filter_filter, (by funext a; simp : (fun a => p a && p a) = p)] at h
    have hlen : ((sortClosesAsc parse rows).filter p).length = (rows.filter p).length :=
      ((List.mergeSort_perm rows (closesLe parse)).filter p).length_eq
    exact (hsub2.eq_of_length hlen.symm).symm

/-- Milliseconds per day: `1000 * 60 * 60 * 24`. -/
def msPerDay : Int := 86400000

/-- `Math.ceil(a / b)` for integer `a` and positive integer `b`. -/
def ceilDiv (a b : Int) : Int := -((-a).fdiv b)

/-- `daysUntil(dateStr)` from app.js, with `new Date()` being the `now`
timestamp: `null` when the date does not parse, otherwise
`Math.ceil((d - now) / 86400000)`. -/
def daysUntil (parse : String → Option Int) (now : Int) (s : Option String) : Option Int :=
  match safeDateK parse s with
  | none => none
  | some d => some (ceilDiv (d - now) msPerDay)

/-- The markup of the deadline-soon badge in `renderCard`. -/
def badgeMarkup : String := "<span class=\"badge-deadline\">Deadline Soon</span>"

/-- The `deadlineBadge` expression of `renderCard`:
`days !== null && days <= 21 ? <span .../> : ''`. -/
def deadlineBadge (parse : String → Option Int) (now : Int) (closes : Option String) :
    String :=
  match daysUntil parse now closes with
  | none => ""
  | some days => if days ≤ 21 then badgeMarkup else ""

/-- C8: Deadline badge boundary. For every date parser, current moment and
parseable closing-date string: when the closing date is exactly 21 days
away the card shows the deadline-soon badge, and when it is exactly 22
days away it does not — the 21-day boundary is inclusive. -/
theorem c8_deadline_badge_boundary :
    ∀ (parse : String → Option Int) (now : Int) (s : String),
      s.isEmpty = false →
      (parse s = some (now + 21 * msPerDay) →
        deadlineBadge parse now (some s) = badgeMarkup)
      ∧ (parse s = some (now + 22 * msPerDay) →
        deadlineBadge parse now (some s) = "") := by
  intro parse now s hs
  have h21 : now + 21 * msPerDay - now = 21 * msPerDay := by ring
  have h22 : now + 22 * msPerDay - now = 22 * msPerDay := by ring
  have hc21 : ceilDiv (21 * msPerDay) msPerDay = 21 := by decide
  have hc22 : ceilDiv (22 * msPerDay) msPerDay = 22 := by decide
  constructor <;> intro hp <;>
    simp [deadlineBadge, daysUntil, safeDateK, hs, hp, h21, h22, hc21, hc22]

/-- Witness parser for the badge theorems: three fixed date strings. -/
def parseFix : String → Option Int := fun t =>
  if t == "D21" then some (21 * msPerDay)
  else if t == "D22" then some (22 * msPerDay)
  else if t == "PAST" then some (-5 * msPerDay)
  else none

/-- Witness for C8 at `now = 0` with concrete 21- and 22-day dates. -/
theorem c8_deadline_badge_boundary_witness :
    deadlineBadge parseFix 0 (some "D21") = badgeMarkup
    ∧ deadlineBadge parseFix 0 (some "D22") = "" :=
  ⟨(c8_deadline_badge_boundary parseFix 0 "D21" (by decide)).1 (by decide),
   (c8_deadline_badge_boundary parseFix 0 "D22" (by decide)).2 (by decide)⟩

/-- C10: the badge condition has no lower bound. For every date parser,
current moment and parseable closing-date string whose timestamp is not
after the current moment (a past or just-elapsed deadline), the card
still shows the deadline-soon badge. -/
theorem c10_badge_shown_for_past_dates :
    ∀ (parse : String → Option Int) (now : Int) (s : String) (d : Int),
      s.isEmpty = false → parse s = some d → d ≤ now →
      deadlineBadge parse now (some s) = badgeMarkup := by
  intro parse now s d hs hp hd
  have hnonneg : (0 : Int) ≤ (-(d - now)).fdiv msPerDay := by
    apply Int.fdiv_nonneg
    · omega
    · decide
  have hle : ceilDiv (d - now) msPerDay ≤ 21 := by
    unfold ceilDiv
    omega
  simp [deadlineBadge, daysUntil, safeDateK, hs, hp, hle]

/-- Witness for C10 at `now = 10` with a concrete past date. -/
theorem c10_badge_shown_for_past_dates_witness :
    deadlineBadge parseFix 10 (some "PAST") = badgeMarkup :=
  c10_badge_shown_for_past_dates parseFix 10 "PAST" (-5 * msPerDay)
    (by decide) (by decide) (by decide)

/-- JS `String.prototype.replaceAll` for a single-character needle. -/
def replaceAllChar (c : Char) (rep : List Char) : List Char → List Char
  | [] => []
  | d :: rest =>
    if d == c then rep ++ replaceAllChar c rep rest
    else d :: replaceAllChar c rep rest

/-- The five `replaceAll` calls of `escapeHtml`, in source order (`&`
first). -/
def escListChain (l : List Char) : List Char :=
  replaceAllChar aposChar "&#039;".data
    (replaceAllChar quotChar "&quot;".data
      (replaceAllChar gtChar "&gt;".data
        (replaceAllChar ltChar "&lt;".data
          (replaceAllChar ampChar "&amp;".data l))))

/-- `escapeHtml(s)` from app.js: `(s ?? '').toString()` followed by the
five `replaceAll` calls. -/
def escapeHtml (s : Option String) : String :=
  ⟨escListChain (s.getD "").data⟩

/-- `escapeAttr(s)` from app.js: `escapeHtml(s).replaceAll(' ', '%20')`. -/
def escapeAttr (s : Option String) : String :=
  ⟨replaceAllChar spaceChar "%20".data (escapeHtml s).data⟩

/-- Entity bodies that may follow an ampersand in escaped output. -/
def entityTails : List (List Char) :=
  ["amp;".data, "lt;".data, "gt;".data, "quot;".data, "#039;".data]

/-- Every ampersand in the list starts one of the five HTML entities
emitted by `escapeHtml`. -/
def ampOk : List Char → Bool
  | [] => true
  | d :: rest =>
    (if d == ampChar then entityTails.any (fun t => startsWithL rest t) else true)
    && ampOk rest

/-- Membership in a `replaceAllChar` result comes from the replacement or
from a surviving (non-needle) character of the input. -/
theorem mem_replaceAllChar {x c : Char} {rep l : List Char}
    (h : x ∈ replaceAllChar c rep l) : x ∈ rep ∨ (x ∈ l ∧ x ≠ c) := by
  induction l with
  | nil => simp [replaceAllChar] at h
  | cons d rest ih =>
    by_cases hd : d == c
    · rw [replaceAllChar, if_pos hd] at h
      rcases List.mem_append.1 h with h1 | h2
      · exact Or.inl h1
      · rcases ih h2 with h3 | ⟨h4, h5⟩
        · exact Or.inl h3
        · exact Or.inr ⟨List.mem_cons_of_mem d h4, h5⟩
    · rw [replaceAllChar, if_neg hd] at h
      rcases List.mem_cons.1 h with h1 | h2
      · subst h1
        refine Or.inr ⟨List.mem_cons_self _ _, ?_⟩
        simpa using hd
      · rcases ih h2 with h3 | ⟨h4, h5⟩
        · exact Or.inl h3
        · exact Or.inr ⟨List.mem_cons_of_mem d h4, h5⟩

/-- The replaced character is gone afterwards (when the replacement does
not contain it). -/
theorem not_mem_replaceAllChar_self {c : Char} {rep : List Char}
    (hrep : c ∉ rep) (l : List Char) : c ∉ replaceAllChar c rep l := by
  intro h
  rcases mem_replaceAllChar h with h1 | ⟨_, h2⟩
  · exact hrep h1
  · exact h2 rfl

/-- A character absent from both input and replacement stays absent. -/
theorem not_mem_replaceAllChar_of {x c : Char} {rep l : List Char}
    (hrep : x ∉ rep) (hl : x ∉ l) : x ∉ replaceAllChar c rep l := by
  intro h
  rcases mem_replaceAllChar h with h1 | ⟨h2, _⟩
  · exact hrep h1
  · exact hl h2

/-- What one input character contributes to the escaped output. -/
def escChar (c : Char) : List Char :=
  if c == ampChar then "&amp;".data
  else if c == ltChar then "&lt;".data
  else if c == gtChar then "&gt;".data
  else if c == quotChar then "&quot;".data
  else if c == aposChar then "&#039;".data
  else [c]

/-- Character-by-character view of the escape chain. -/
def escCharAll : List Char → List Char
  | [] => []
  | c :: l => escChar c ++ escCharAll l

/-- `replaceAllChar` distributes over concatenation. -/
theorem replaceAllChar_append (c : Char) (rep a b : List Char) :
    replaceAllChar c rep (a ++ b)
      = replaceAllChar c rep a ++ replaceAllChar c rep b := by
  induction a with
  | nil => simp [replaceAllChar]
  | cons d rest ih =>
    by_cases hd : (d == c) = true <;> simp [replaceAllChar, hd, ih]

/-- Unfolding the escape chain one input character at a time. -/
theorem escListChain_cons (c : Char) (rest : List Char) :
    escListChain (c :: rest) = escChar c ++ escListChain rest := by
  unfold escListChain
  have e1 : replaceAllChar ampChar "&amp;".data (c :: rest)
      = (if c == ampChar then "&amp;".data else [c])
        ++ replaceAllChar ampChar "&amp;".data rest := by
    by_cases h : (c == ampChar) = true <;> simp [replaceAllChar, h]
  rw [e1, replaceAllChar_append, replaceAllChar_append, replaceAllChar_append,
    replaceAllChar_append]
  congr 1
  by_cases h1 : (c == ampChar) = true
  · have hc : c = ampChar := by simpa using h1
    subst hc
    decide
  · rw [if_neg h1]
    by_cases h2 : (c == ltChar) = true
    · have hc : c = ltChar := by simpa using h2
      subst hc
      decide
    · by_cases h3 : (c == gtChar) = true
      · have hc : c = gtChar := by simpa using h3
        subst hc
        decide
      · by_cases h4 : (c == quotChar) = true
        · have hc : c = quotChar := by simpa using h4
          subst hc
          decide
        · by_cases h5 : (c == aposChar) = true
          · have hc : c = aposChar := by simpa using h5
            subst hc
            decide
          · rw [escChar, if_neg h1, if_neg h2, if_neg h3, if_neg h4, if_neg h5]
            simp [replaceAllChar, h2, h3, h4, h5]

/-- The escape chain is the character-by-character map. -/
theorem escListChain_eq_escCharAll (l : List Char) : escListChain l = escCharAll l := by
  induction l with
  | nil => rfl
  | cons c rest ih => rw [escListChain_cons, escCharAll, ih]

/-- The empty pattern matches any list. -/
theorem startsWithL_nil (l : List Char) : startsWithL l [] = true := by
  cases l <;> rfl

/-- A list starts with its own prefix. -/
theorem startsWithL_append (t x : List Char) : startsWithL (t ++ x) t = true := by
  induction t with
  | nil => exact startsWithL_nil x
  | cons c rest ih => simp [startsWithL, ih]

/-- Prepending ampersand-free characters does not affect `ampOk`. -/
theorem ampOk_append (t l : List Char) (ht : ∀ x ∈ t, (x == ampChar) = false) :
    ampOk (t ++ l) = ampOk l := by
  induction t with
  | nil => rfl
  | cons c rest ih =>
    rw [List.cons_append, ampOk, ht c (List.mem_cons_self _ _),
      ih (fun x hx => ht x (List.mem_cons_of_mem _ hx))]
    simp

/-- Prepending a full entity preserves `ampOk`. -/
theorem ampOk_amp_entity (t l : List Char) (htails : t ∈ entityTails)
    (ht : ∀ x ∈ t, (x == ampChar) = false) :
    ampOk ((ampChar :: t) ++ l) = ampOk l := by
  rw [List.cons_append, ampOk]
  have hany : entityTails.any (fun u => startsWithL (t ++ l) u) = true :=
    List.any_eq_true.2 ⟨t, htails, startsWithL_append t l⟩
  simp [hany, ampOk_append t l ht]

/-- Escaped output never contains a stray ampersand. -/
theorem ampOk_escCharAll (l : List Char) : ampOk (escCharAll l) = true := by
  induction l with
  | nil => rfl
  | cons c rest ih =>
    rw [escCharAll]
    by_cases h1 : (c == ampChar) = true
    · have hc : c = ampChar := by simpa using h1
      subst hc
      rw [show escChar ampChar = ampChar :: "amp;".data from by decide,
        ampOk_amp_entity _ _ (by decide) (by decide), ih]
    · by_cases h2 : (c == ltChar) = true
      · have hc : c = ltChar := by simpa using h2
        subst hc
        rw [show escChar ltChar = ampChar :: "lt;".data from by decide,
          ampOk_amp_entity _ _ (by decide) (by decide), ih]
      · by_cases h3 : (c == gtChar) = true
        · have hc : c = gtChar := by simpa using h3
          subst hc
          rw [show escChar gtChar = ampChar :: "gt;".data from by decide,
            ampOk_amp_entity _ _ (by decide) (by decide), ih]
        · by_cases h4 : (c == quotChar) = true
          · have hc : c = quotChar := by simpa using h4
            subst hc
            rw [show escChar quotChar = ampChar :: "quot;".data from by decide,
              ampOk_amp_entity _ _ (by decide) (by decide), ih]
          · by_cases h5 : (c == aposChar) = true
            · have hc : c = aposChar := by simpa using h5
              subst hc
              rw [show escChar aposChar = ampChar :: "#039;".data from by decide,
                ampOk_amp_entity _ _ (by decide) (by decide), ih]
            · rw [escChar, if_neg h1, if_neg h2, if_neg h3, if_neg h4, if_neg h5,
                List.singleton_append, ampOk]
              simp [h1, ih]

/-- C9: Escaping. `renderCard` passes every inserted text value (name,
about, chips, key-value fields) through `escapeHtml` and the website link
target through `escapeAttr`. For every string: the escaped text contains
no raw less-than, greater-than, double-quote or single-quote character,
and every ampersand in it starts one of the five emitted HTML entities;
the attribute-escaped form additionally contains no space character, each
space having been replaced by `%20`. -/
theorem c9_escaping :
    (∀ s : Option String,
      (∀ c ∈ (escapeHtml s).data,
        c ≠ ltChar ∧ c ≠ gtChar ∧ c ≠ quotChar ∧ c ≠ aposChar)
      ∧ ampOk (escapeHtml s).data = true
      ∧ (∀ c ∈ (escapeAttr s).data, c ≠ spaceChar)
      ∧ (escapeAttr s).data
          = replaceAllChar spaceChar "%20".data (escapeHtml s).data)
    ∧ escapeHtml (some "Tom & \"Jo\" <js>") = "Tom &amp; &quot;Jo&quot; &lt;js&gt;"
    ∧ escapeAttr (some "a b c") = "a%20b%20c" := by
  refine ⟨fun s => ⟨?_, ?_, ?_, rfl⟩, by decide, by decide⟩
  · intro c hc
    have hc5 : c ∈ escListChain (s.getD "").data := hc
    unfold escListChain at hc5
    have hlt : ltChar ∉ escListChain (s.getD "").data := by
      unfold escListChain
      apply not_mem_replaceAllChar_of (by decide)
      apply not_mem_replaceAllChar_of (by decide)
      apply not_mem_replaceAllChar_of (by decide)
      exact not_mem_replaceAllChar_self (by decide) _
    have hgt : gtChar ∉ escListChain (s.getD "").data := by
      unfold escListChain
      apply not_mem_replaceAllChar_of (by decide)
      apply not_mem_replaceAllChar_of (by decide)
      exact not_mem_replaceAllChar_self (by decide) _
    have hquot : quotChar ∉ escListChain (s.getD "").data := by
      unfold escListChain
      apply not_mem_replaceAllChar_of (by decide)
      exact not_mem_replaceAllChar_self (by decide) _
    have hapos : aposChar ∉ escListChain (s.getD "").data :=
      not_mem_replaceAllChar_self (by decide) _
    exact ⟨fun h => hlt (h ▸ hc), fun h => hgt (h ▸ hc),
      fun h => hquot (h ▸ hc), fun h => hapos (h ▸ hc)⟩
  · show ampOk (escListChain (s.getD "").data) = true
    rw [escListChain_eq_escCharAll]
    exact ampOk_escCharAll _
  · intro c hc
    have hsp : spaceChar ∉ (escapeAttr s).data :=
      not_mem_replaceAllChar_self (by decide) _
    exact fun h => hsp (h ▸ hc)

end App
